import Mathlib

/-!
Verification model of the rivet MFT indexer (src/mft_indexer.rs,
src/mft_enumerator.rs, src/usn_monitor.rs).

The concurrent `DashMap<u64, FileRecord>` is modelled as a total lookup
function `Store`; the background loops are modelled as sequential folds, with
the cancellation token modelled as a boolean function of the loop counter and
every external system call (metadata query, device-control refill, journal
read) modelled as an explicit oracle argument.
-/

/-- FileRecord from src/mft_indexer.rs (u64 fields become Nat, i64 becomes Int). -/
structure FileRecord where
  id : Nat
  parent_id : Nat
  name : String
  size : Nat
  modified : Int
  is_dir : Bool
deriving DecidableEq

/-- The `records : DashMap<u64, FileRecord>` table, as an id-indexed lookup. -/
def Store : Type := Nat → Option FileRecord

/-- DashMap::get. -/
def Store.get (s : Store) (id : Nat) : Option FileRecord := s id

/-- DashMap::insert (also models the in-place `item.size = s` write, which
replaces the record at one key). -/
def Store.insert (s : Store) (id : Nat) (r : FileRecord) : Store :=
  fun k => if k = id then some r else s k

/-- Loop body of Indexer::get_full_path (mft_indexer.rs:148-159).  The Rust
loop is a `while let`; here `fuel` is an explicit iteration budget.  The model
is faithful because the loop can run at most 65 iterations (the visited set
grows by one per iteration and the `> 64` check stops it): the theorem
`getFullPathGo_stable` below proves the result is the same for every
`fuel ≥ 65`, so the `66` used in `get_full_path` loses nothing.
`visited` models the `HashSet` (duplicate-free by construction);
`!visited.insert(current_id) || visited.len() > 64` becomes
`currentId ∈ visited ∨ 64 < visited.length + 1`. -/
def getFullPathGo (store : Store) : Nat → Nat → List Nat → List String → List String
  | 0, _, _, components => components
  | fuel + 1, currentId, visited, components =>
    match store.get currentId with
    | none => components
    | some record =>
      if currentId ∈ visited ∨ 64 < visited.length + 1 then components
      else
        let comps := components ++ [record.name]
        if record.parent_id = currentId ∨ record.parent_id = 0 then comps
        else getFullPathGo store fuel record.parent_id (currentId :: visited) comps

/-- Indexer::get_full_path (mft_indexer.rs:143-163):
`format!("{}:\\{}", drive_letter, components.join("\\"))` after reversing. -/
def get_full_path (store : Store) (id : Nat) (drive : Char) : String :=
  toString drive ++ ":\\" ++ String.intercalate "\\" (getFullPathGo store 66 id [] []).reverse

/-- MftEntry from src/mft_enumerator.rs; `α` is the name representation:
`List Nat` (UTF-16 code units) at the byte-parsing level, `String` (after the
lossy decode, which the record-level model treats as given) at the indexer
level. -/
structure MftEntry (α : Type) where
  fid : Nat
  parent_fid : Nat
  name : α
  modified : Int
  is_dir : Bool
deriving DecidableEq

/-- Byte read from the scratch buffer; indexes past the end of the list model
reads of uninitialized/stale buffer memory (returning 0). -/
def byteAt (buf : List Nat) (i : Nat) : Nat := buf.getD i 0

/-- Little-endian read of `n` bytes at `off`. -/
def readLE (buf : List Nat) : Nat → Nat → Nat
  | _, 0 => 0
  | off, n + 1 => byteAt buf off + 256 * readLE buf (off + 1) n

/-- Reinterpret an unsigned 64-bit value as Rust i64 (two's complement). -/
def toI64 (n : Nat) : Int :=
  if n < 2 ^ 63 then (n : Int) else (n : Int) - 2 ^ 64

/-- The blind `&*(buffer.as_ptr().add(offset) as *const USN_RECORD_V2)`
reinterpretation in MftIter::next (mft_enumerator.rs:74-90), at the
USN_RECORD_V2 layout: RecordLength at +0 (u32), FileReferenceNumber at +8
(u64), ParentFileReferenceNumber at +16 (u64), TimeStamp at +32 (i64),
FileAttributes at +52 (u32), FileNameLength at +56 (u16), FileName at +60.
`FILE_ATTRIBUTE_DIRECTORY = 0x10`.  Returns the parsed entry and the declared
RecordLength.  No length field is validated, exactly as in the source. -/
def parseUsnRecord (buf : List Nat) (off : Nat) : MftEntry (List Nat) × Nat :=
  let recLen := readLE buf off 4
  let nameLen := readLE buf (off + 56) 2 / 2
  let nameUnits := (List.range nameLen).map (fun i => readLE buf (off + 60 + 2 * i) 2)
  (⟨readLE buf (off + 8) 8, readLE buf (off + 16) 8, nameUnits,
    toI64 (readLE buf (off + 32) 8),
    (Nat.land (readLE buf (off + 52) 4) 16) != 0⟩, recLen)

/-- Outcome of one DeviceIoControl(FSCTL_ENUM_USN_DATA) refill:
success with the returned bytes, ERROR_HANDLE_EOF, or another system error. -/
inductive RefillOutcome where
  | ok (bytes : List Nat)
  | eof
  | fail (msg : String)
deriving DecidableEq

/-- MftIter state (mft_enumerator.rs:60-66). -/
structure IterState where
  next_start_fid : Nat
  buffer : List Nat
  offset : Nat
  bytes_read : Nat
deriving DecidableEq

/-- DeviceIoControl writing `new` into the front of the scratch buffer. -/
def writeBuf (old new : List Nat) : List Nat := new ++ old.drop new.length

/-- MftIter::next (mft_enumerator.rs:71-133).  The sequence of device-control
outcomes is an explicit oracle list `refills`; the model returns `none` both
for normal end of sequence (EOF or a short `bytes_returned < 8` response) and
when the oracle list is exhausted. -/
def mftNext (refills : List RefillOutcome) (s : IterState) :
    Option (Except String (MftEntry (List Nat)) × IterState) :=
  if s.offset < s.bytes_read then
    some (Except.ok (parseUsnRecord s.buffer s.offset).1,
      { s with offset := s.offset + (parseUsnRecord s.buffer s.offset).2 })
  else
    match refills with
    | [] => none
    | RefillOutcome.eof :: _ => none
    | RefillOutcome.fail msg :: _ =>
      some (Except.error ("DeviceIoControl failed at FID 0x" ++
        String.mk (Nat.toDigits 16 s.next_start_fid) ++ ": " ++ msg), s)
    | RefillOutcome.ok bytes :: rest =>
      if bytes.length < 8 then none
      else
        mftNext rest
          { next_start_fid := readLE (writeBuf s.buffer bytes) 0 8,
            buffer := writeBuf s.buffer bytes,
            offset := 8,
            bytes_read := bytes.length }

/-- The FileRecord built for each enumerated entry in Indexer::index_volume
(mft_indexer.rs:80-87): `size: 0, // Will be fetched later`. -/
def recordOfEntry (e : MftEntry String) : FileRecord :=
  { id := e.fid, parent_id := e.parent_fid, name := e.name, size := 0,
    modified := e.modified, is_dir := e.is_dir }

/-- The enumeration loop of Indexer::index_volume (mft_indexer.rs:74-90):
cancellation is checked before each entry, an `Err` entry is propagated by
`let entry = entry?`, an `Ok` entry is inserted. -/
def indexVolumeGo (cancelled : Nat → Bool) :
    List (Except String (MftEntry String)) → Store → Nat → Except String Store
  | [], store, _ => Except.ok store
  | e :: rest, store, i =>
    if cancelled i then Except.ok store
    else
      match e with
      | Except.error msg => Except.error msg
      | Except.ok entry =>
        indexVolumeGo cancelled rest (store.insert entry.fid (recordOfEntry entry)) (i + 1)

/-- Indexer::index_volume (mft_indexer.rs:35-93).  `journalOk` is the outcome
of the FSCTL_QUERY_USN_JOURNAL probe; `entries` is the sequence the
enumerator yields. -/
def index_volume (store : Store) (drive : Char) (journalOk : Bool)
    (entries : List (Except String (MftEntry String))) (cancelled : Nat → Bool) :
    Except String Store :=
  if journalOk then indexVolumeGo cancelled entries store 0
  else Except.error ("Failed to query USN journal for volume " ++ toString drive ++ ":")

/-- Folding the successfully enumerated entries into the table, with no
cancellation: the reference store that a (partial) bulk load produces. -/
def applyOkEntries (store : Store) (es : List (MftEntry String)) : Store :=
  es.foldl (fun st e => st.insert e.fid (recordOfEntry e)) store

/-- One iteration of the Indexer::fetch_sizes sweep (mft_indexer.rs:104-140):
read the record, skip directories and already-sized files, resolve the path,
query the metadata oracle `stat`, and commit the size through a fresh lookup
(the `get_mut`). -/
def fetchSizesItem (store : Store) (drive : Char) (stat : String → Option Nat) (id : Nat) : Store :=
  match store.get id with
  | none => store
  | some r =>
    if r.is_dir || decide (0 < r.size) then store
    else
      match stat (get_full_path store id drive) with
      | none => store
      | some s =>
        match store.get id with
        | none => store
        | some r2 => store.insert id { r2 with size := s }

/-- The fetch_sizes loop over the snapshot of ids, checking cancellation per
item. -/
def fetchSizesGo (drive : Char) (stat : String → Option Nat) (cancelled : Nat → Bool) :
    List Nat → Store → Nat → Store
  | [], store, _ => store
  | id :: rest, store, i =>
    if cancelled i then store
    else fetchSizesGo drive stat cancelled rest (fetchSizesItem store drive stat id) (i + 1)

/-- Indexer::fetch_sizes (mft_indexer.rs:95-141); `ids` is the snapshot
`all_ids` collected from the table. -/
def fetch_sizes (store : Store) (drive : Char) (stat : String → Option Nat)
    (ids : List Nat) (cancelled : Nat → Bool) : Store :=
  fetchSizesGo drive stat cancelled ids store 0

/-- A change-journal entry as consumed by Monitor::start_monitoring:
`time` is `duration_since(UNIX_EPOCH)` in whole seconds (`as_secs`), `none`
when the timestamp precedes the Unix epoch (the `Err` of `duration_since`). -/
structure UsnEntry where
  fid : Nat
  parent_fid : Nat
  file_name : String
  time : Option Nat
  is_dir : Bool
deriving DecidableEq

/-- The timestamp conversion in usn_monitor.rs:42-45:
`(d.as_secs() + 11_644_473_600) * 10_000_000` in wrapping u64 arithmetic,
then reinterpreted `as i64`; `unwrap_or(0)` for pre-epoch times. -/
def usnModified : Option Nat → Int
  | some t => toI64 ((t + 11644473600) * 10000000 % 2 ^ 64)
  | none => 0

/-- Processing of one journal record in Monitor::start_monitoring
(usn_monitor.rs:30-56): size 0 for directories, otherwise the live metadata
query on the resolved path (0 if it fails), then an unconditional insert.
The monitor loop applies this to each drained record in order. -/
def processUsnEntry (store : Store) (drive : Char) (stat : String → Option Nat) (e : UsnEntry) : Store :=
  let size := if e.is_dir then 0 else (stat (get_full_path store e.fid drive)).getD 0
  store.insert e.fid
    { id := e.fid, parent_id := e.parent_fid, name := e.file_name, size := size,
      modified := usnModified e.time, is_dir := e.is_dir }

/-- Frame relation of the size-fetch sweep on one record: only `size` may
change, and not at all on a directory or on a record whose size is already
nonzero. -/
def FrameOk (r r' : FileRecord) : Prop :=
  r'.id = r.id ∧ r'.parent_id = r.parent_id ∧ r'.name = r.name ∧
  r'.modified = r.modified ∧ r'.is_dir = r.is_dir ∧
  (r.is_dir = true → r' = r) ∧ (r.size ≠ 0 → r' = r)

/-- A parent chain of the store that reaches a root: `ids` and `names` are the
visited ids and names in leaf-to-root order (the resolver's collection
order), ending at a record whose parent is itself or 0. -/
inductive RootedChain (store : Store) : Nat → List Nat → List String → Prop where
  | root (id : Nat) (r : FileRecord) :
      store.get id = some r → (r.parent_id = id ∨ r.parent_id = 0) →
      RootedChain store id [id] [r.name]
  | step (id : Nat) (r : FileRecord) (ids : List Nat) (names : List String) :
      store.get id = some r → r.parent_id ≠ id → r.parent_id ≠ 0 →
      RootedChain store r.parent_id ids names →
      RootedChain store id (id :: ids) (r.name :: names)

/-- The consecutive naturals k, k+1, ..., k+n-1. -/
def natsFrom : Nat → Nat → List Nat
  | _, 0 => []
  | k, n + 1 => k :: natsFrom (k + 1) n

/-- Empty table. -/
def emptyStore : Store := fun _ => none

/-- Store with the mutual-parent cycle 100 ↔ 101 from the specification. -/
def cycleStore : Store := fun i =>
  if i = 100 then some { id := 100, parent_id := 101, name := "n100", size := 0, modified := 0, is_dir := true }
  else if i = 101 then some { id := 101, parent_id := 100, name := "n101", size := 0, modified := 0, is_dir := true }
  else none

/-- Store with root `Users` (id 5, parent 0, dir) and child `a.txt`
(id 9, parent 5, size 1234) from the specification. -/
def usersStore : Store := fun i =>
  if i = 5 then some { id := 5, parent_id := 0, name := "Users", size := 0, modified := 0, is_dir := true }
  else if i = 9 then some { id := 9, parent_id := 5, name := "a.txt", size := 1234, modified := 0, is_dir := false }
  else none

/-- An acyclic 65-deep parent chain: ids 1, ..., 65, each record's parent the
next id, id 65 the root. -/
def chainStore : Store := fun i =>
  if i = 0 then none
  else if i < 65 then some { id := i, parent_id := i + 1, name := "a", size := 0, modified := 0, is_dir := false }
  else if i = 65 then some { id := 65, parent_id := 0, name := "a", size := 0, modified := 0, is_dir := true }
  else none

/-- A file record already carrying a fetched (nonzero) size. -/
def rec7 : FileRecord := { id := 7, parent_id := 2, name := "old.txt", size := 1234, modified := 50, is_dir := false }

/-- Store holding only rec7. -/
def store7 : Store := fun i => if i = 7 then some rec7 else none

/-- A journal entry for id 7 whose path fails to resolve to a live file. -/
def usnEntry7 : UsnEntry := { fid := 7, parent_fid := 2, file_name := "old.txt", time := some 1700000000, is_dir := false }

/-- A directory journal entry. -/
def usnDir : UsnEntry := { fid := 42, parent_fid := 5, file_name := "docs", time := some 1700000000, is_dir := true }

/-- A file journal entry. -/
def usnFile : UsnEntry := { fid := 43, parent_fid := 5, file_name := "f.txt", time := some 1700000000, is_dir := false }

/-- A bulk-enumerated entry for id 7. -/
def entry7 : MftEntry String := { fid := 7, parent_fid := 2, name := "new.txt", modified := 60, is_dir := false }

/-- A refill response of 16 bytes: the 8-byte resume cursor followed by 8
valid bytes whose declared RecordLength is 100. -/
def badBuf : List Nat := [0, 0, 0, 0, 0, 0, 0, 0, 100, 0, 0, 0, 0, 0, 0, 0]

/-- Iterator state right after that refill: 8 bytes of record data remain
valid, but the record at offset 8 declares length 100. -/
def badState : IterState := { next_start_fid := 5, buffer := badBuf, offset := 8, bytes_read := 16 }

/-- A response carrying only a resume cursor (8 bytes, cursor value 1). -/
def cursorBytes : List Nat := [1, 0, 0, 0, 0, 0, 0, 0]

/-- Fresh iterator state (mft_enumerator.rs:44-50). -/
def iterStart : IterState := { next_start_fid := 0, buffer := [], offset := 0, bytes_read := 0 }

/-- Unfolding of the resolver loop when the id is absent. -/
theorem getFullPathGo_succ_none (store : Store) (fuel id : Nat) (visited : List Nat)
    (comps : List String) (h : store.get id = none) :
    getFullPathGo store (fuel + 1) id visited comps = comps := by
  rw [getFullPathGo, h]

/-- Unfolding of the resolver loop when the id is present. -/
theorem getFullPathGo_succ_some (store : Store) (fuel id : Nat) (visited : List Nat)
    (comps : List String) (r : FileRecord) (h : store.get id = some r) :
    getFullPathGo store (fuel + 1) id visited comps =
      if id ∈ visited ∨ 64 < visited.length + 1 then comps
      else if r.parent_id = id ∨ r.parent_id = 0 then comps ++ [r.name]
      else getFullPathGo store fuel r.parent_id (id :: visited) (comps ++ [r.name]) := by
  rw [getFullPathGo, h]

/-- Fuel-irrelevance of the resolver loop: any fuel covering the remaining
visit budget (the visited set never exceeds 65 entries) yields the same
result.  This is the termination argument for the `while let` loop of
get_full_path. -/
theorem getFullPathGo_stable (store : Store) :
    ∀ f1 f2 id visited comps, 65 ≤ visited.length + f1 → 65 ≤ visited.length + f2 →
      getFullPathGo store f1 id visited comps = getFullPathGo store f2 id visited comps := by
  intro f1
  induction f1 with
  | zero =>
    intro f2 id visited comps h1 h2
    cases f2 with
    | zero => rfl
    | succ b =>
      cases hg : store.get id with
      | none => rw [getFullPathGo, getFullPathGo_succ_none store b id visited comps hg]
      | some r =>
        rw [getFullPathGo, getFullPathGo_succ_some store b id visited comps r hg,
          if_pos (Or.inr (by omega))]
  | succ a ih =>
    intro f2 id visited comps h1 h2
    cases f2 with
    | zero =>
      cases hg : store.get id with
      | none => rw [getFullPathGo, getFullPathGo_succ_none store a id visited comps hg]
      | some r =>
        rw [getFullPathGo, getFullPathGo_succ_some store a id visited comps r hg,
          if_pos (Or.inr (by omega))]
    | succ b =>
      cases hg : store.get id with
      | none =>
        rw [getFullPathGo_succ_none store a id visited comps hg,
          getFullPathGo_succ_none store b id visited comps hg]
      | some r =>
        rw [getFullPathGo_succ_some store a id visited comps r hg,
          getFullPathGo_succ_some store b id visited comps r hg]
        by_cases hc : id ∈ visited ∨ 64 < visited.length + 1
        · rw [if_pos hc, if_pos hc]
        · rw [if_neg hc, if_neg hc]
          by_cases hp : r.parent_id = id ∨ r.parent_id = 0
          · rw [if_pos hp, if_pos hp]
          · rw [if_neg hp, if_neg hp]
            exact ih b r.parent_id (id :: visited) _
              (by simp only [List.length_cons]; omega)
              (by simp only [List.length_cons]; omega)

/-- The resolver loop never accumulates more than 64 path components. -/
theorem getFullPathGo_len (store : Store) :
    ∀ fuel id visited comps, comps.length ≤ visited.length → visited.length ≤ 64 →
      (getFullPathGo store fuel id visited comps).length ≤ 64 := by
  intro fuel
  induction fuel with
  | zero =>
    intro id visited comps h1 h2
    rw [getFullPathGo]
    omega
  | succ a ih =>
    intro id visited comps h1 h2
    cases hg : store.get id with
    | none =>
      rw [getFullPathGo_succ_none store a id visited comps hg]
      omega
    | some r =>
      rw [getFullPathGo_succ_some store a id visited comps r hg]
      by_cases hc : id ∈ visited ∨ 64 < visited.length + 1
      · rw [if_pos hc]; omega
      · rw [if_neg hc]
        have hlen : visited.length + 1 ≤ 64 := by
          by_contra hgt
          exact hc (Or.inr (by omega))
        by_cases hp : r.parent_id = id ∨ r.parent_id = 0
        · rw [if_pos hp]
          simp only [List.length_append, List.length_cons, List.length_nil]
          omega
        · rw [if_neg hp]
          exact ih r.parent_id (id :: visited) (comps ++ [r.name])
            (by simp only [List.length_append, List.length_cons, List.length_nil]; omega)
            (by simp only [List.length_cons]; omega)

/-- C1: for every store contents (dangling, self-referential or cyclic parent
links included), get_full_path terminates within the visit bound: the loop's
result is already stable at any fuel ≥ 65 (so the while-loop halts within the
budget), the collected path has at most 64 components, the returned string is
the truncated best-effort path, and on the mutual-parent cycle 100 ↔ 101 the
resolver stops at the revisit and returns a bounded path. -/
theorem get_full_path_bound_c1 (store : Store) (id : Nat) (drive : Char) (fuel : Nat)
    (hfuel : 65 ≤ fuel) :
    getFullPathGo store fuel id [] [] = getFullPathGo store 66 id [] [] ∧
    (getFullPathGo store 66 id [] []).length ≤ 64 ∧
    get_full_path store id drive =
      toString drive ++ ":\\" ++ String.intercalate "\\" (getFullPathGo store fuel id [] []).reverse ∧
    get_full_path cycleStore 100 'C' = "C:\\n101\\n100" := by
  have hstable := getFullPathGo_stable store fuel 66 id [] []
    (by simpa using hfuel) (by simp)
  refine ⟨hstable, ?_, ?_, ?_⟩
  · exact getFullPathGo_len store 66 id [] [] (by simp) (by simp)
  · rw [get_full_path, hstable]
  · decide

/-- Witness for C1 at the cyclic store with fuel 70. -/
theorem get_full_path_bound_c1_witness :
    65 ≤ 70 ∧
    (getFullPathGo cycleStore 70 100 [] [] = getFullPathGo cycleStore 66 100 [] [] ∧
     (getFullPathGo cycleStore 66 100 [] []).length ≤ 64 ∧
     get_full_path cycleStore 100 'C' =
       toString 'C' ++ ":\\" ++ String.intercalate "\\" (getFullPathGo cycleStore 70 100 [] []).reverse ∧
     get_full_path cycleStore 100 'C' = "C:\\n101\\n100") :=
  ⟨by omega, get_full_path_bound_c1 cycleStore 100 'C' 70 (by omega)⟩

/-- The resolver loop follows a rooted parent chain exactly, appending the
chain's names in collection (leaf-to-root) order, provided the chain is
acyclic, disjoint from the already-visited set, and fits the visit budget. -/
theorem getFullPathGo_chain (store : Store) :
    ∀ {id : Nat} {ids : List Nat} {names : List String}, RootedChain store id ids names →
      ∀ (visited : List Nat) (comps : List String) (fuel : Nat),
        ids.Nodup → (∀ x ∈ ids, x ∉ visited) →
        visited.length + ids.length ≤ 64 → ids.length ≤ fuel →
        getFullPathGo store fuel id visited comps = comps ++ names := by
  intro id ids names h
  induction h with
  | root id r hget hpar =>
    intro visited comps fuel hnd hdisj hbound hfuel
    cases fuel with
    | zero => simp at hfuel
    | succ f =>
      rw [getFullPathGo_succ_some store f id visited comps r hget]
      have hcond : ¬(id ∈ visited ∨ 64 < visited.length + 1) := by
        rintro (hv | hlen)
        · exact hdisj id (by simp) hv
        · simp only [List.length_cons, List.length_nil] at hbound
          omega
      rw [if_neg hcond, if_pos hpar]
  | step id r ids' names' hget hne hnz hchain ih =>
    intro visited comps fuel hnd hdisj hbound hfuel
    cases fuel with
    | zero => simp at hfuel
    | succ f =>
      rw [getFullPathGo_succ_some store f id visited comps r hget]
      have hcond : ¬(id ∈ visited ∨ 64 < visited.length + 1) := by
        rintro (hv | hlen)
        · exact hdisj id (by simp) hv
        · simp only [List.length_cons] at hbound
          omega
      have hp : ¬(r.parent_id = id ∨ r.parent_id = 0) := by
        rintro (hv | hv)
        · exact hne hv
        · exact hnz hv
      rw [if_neg hcond, if_neg hp]
      have hnd' := List.nodup_cons.mp hnd
      rw [ih (id :: visited) (comps ++ [r.name]) f hnd'.2 ?disj ?bound ?fuel]
      · simp
      case disj =>
        intro x hx hmem
        rcases List.mem_cons.mp hmem with hxid | hv
        · exact hnd'.1 (hxid ▸ hx)
        · exact hdisj x (List.mem_cons_of_mem _ hx) hv
      case bound =>
        simp only [List.length_cons] at hbound ⊢
        omega
      case fuel =>
        simp only [List.length_cons] at hfuel
        omega

/-- C4 (amended: the chain must fit the 64-visit bound): for every record
whose parent chain reaches a root without cycles or missing links in at most
64 records, get_full_path returns the drive prefix followed by the chain's
names in root-to-leaf order joined by the separator. -/
theorem get_full_path_chain_c4 (store : Store) (id : Nat) (ids : List Nat)
    (names : List String) (drive : Char)
    (hchain : RootedChain store id ids names) (hnd : ids.Nodup) (hlen : ids.length ≤ 64) :
    get_full_path store id drive =
      toString drive ++ ":\\" ++ String.intercalate "\\" names.reverse := by
  rw [get_full_path,
    getFullPathGo_chain store hchain [] [] 66 hnd (by simp) (by simpa using hlen) (by omega)]
  simp

/-- Witness for C4 at the specification's example: root `Users` (id 5,
parent 0) with child `a.txt` (id 9, parent 5) resolves to C:\Users\a.txt;
the root record itself has parent_id 0 (the no-ancestor case). -/
theorem get_full_path_chain_c4_witness :
    RootedChain usersStore 9 [9, 5] ["a.txt", "Users"] ∧
    [9, 5].Nodup ∧ [9, 5].length ≤ 64 ∧
    get_full_path usersStore 9 'C' = "C:\\Users\\a.txt" := by
  have h9 : usersStore.get 9 =
      some { id := 9, parent_id := 5, name := "a.txt", size := 1234, modified := 0, is_dir := false } := rfl
  have h5 : usersStore.get 5 =
      some { id := 5, parent_id := 0, name := "Users", size := 0, modified := 0, is_dir := true } := rfl
  have hchain : RootedChain usersStore 9 [9, 5] ["a.txt", "Users"] :=
    RootedChain.step 9 _ [5] ["Users"] h9 (by decide) (by decide)
      (RootedChain.root 5 _ h5 (Or.inr rfl))
  refine ⟨hchain, by decide, by decide, ?_⟩
  rw [get_full_path_chain_c4 usersStore 9 [9, 5] ["a.txt", "Users"] 'C' hchain
    (by decide) (by decide)]
  decide

/-- Every suffix of the 65-deep chain store is a rooted chain. -/
theorem chainStore_chain : ∀ n k, 1 ≤ k → k + n = 65 →
    RootedChain chainStore k (natsFrom k (n + 1)) (List.replicate (n + 1) "a") := by
  intro n
  induction n with
  | zero =>
    intro k h1 h2
    have hk : k = 65 := by omega
    subst hk
    exact RootedChain.root 65
      { id := 65, parent_id := 0, name := "a", size := 0, modified := 0, is_dir := true }
      rfl (Or.inr rfl)
  | succ m ih =>
    intro k h1 h2
    have hget : chainStore.get k =
        some { id := k, parent_id := k + 1, name := "a", size := 0, modified := 0, is_dir := false } := by
      simp only [chainStore, Store.get]
      rw [if_neg (by omega), if_pos (by omega)]
    exact RootedChain.step k _ (natsFrom (k + 1) (m + 1)) (List.replicate (m + 1) "a")
      hget (by simp) (by simp) (ih (k + 1) (by omega) (by omega))

set_option maxRecDepth 8000 in
/-- Counterexample to C4 as stated: in the store holding the acyclic 65-deep
rooted chain 1 → 2 → ... → 65 (no cycles, no missing links), resolving id 1
does not return the drive prefix followed by all 65 chain names — the 65th
component is truncated by the visit bound. -/
theorem get_full_path_deep_chain_cex :
    RootedChain chainStore 1 (natsFrom 1 65) (List.replicate 65 "a") ∧
    (natsFrom 1 65).Nodup ∧
    (natsFrom 1 65).length = 65 ∧
    get_full_path chainStore 1 'C' ≠
      toString 'C' ++ ":\\" ++ String.intercalate "\\" (List.replicate 65 "a").reverse := by
  exact ⟨chainStore_chain 64 1 (by omega) (by omega), by decide, by decide, by decide⟩

/-- Lookup after insert. -/
theorem Store.get_insert (s : Store) (id : Nat) (r : FileRecord) (k : Nat) :
    (s.insert id r).get k = if k = id then some r else s.get k := rfl

/-- FrameOk is reflexive. -/
theorem FrameOk_refl (r : FileRecord) : FrameOk r r :=
  ⟨rfl, rfl, rfl, rfl, rfl, fun _ => rfl, fun _ => rfl⟩

/-- FrameOk is transitive. -/
theorem FrameOk_trans {r r' r'' : FileRecord} (h1 : FrameOk r r') (h2 : FrameOk r' r'') :
    FrameOk r r'' := by
  obtain ⟨a1, b1, c1, d1, e1, f1, g1⟩ := h1
  obtain ⟨a2, b2, c2, d2, e2, f2, g2⟩ := h2
  refine ⟨a2.trans a1, b2.trans b1, c2.trans c1, d2.trans d1, e2.trans e1, ?_, ?_⟩
  · intro hd
    have hr' := f1 hd
    have hr'' := f2 (by rw [hr']; exact hd)
    rw [hr'', hr']
  · intro hs
    have hr' := g1 hs
    have hr'' := g2 (by rw [hr']; exact hs)
    rw [hr'', hr']

/-- One sweep item either leaves the table unchanged or replaces the one
processed record — necessarily a non-directory of unknown size — with a copy
whose size field is the stat result. -/
theorem fetchSizesItem_cases (store : Store) (drive : Char) (stat : String → Option Nat)
    (pid : Nat) :
    fetchSizesItem store drive stat pid = store ∨
    ∃ r s, store.get pid = some r ∧ r.is_dir = false ∧ r.size = 0 ∧
      fetchSizesItem store drive stat pid = store.insert pid { r with size := s } := by
  unfold fetchSizesItem
  split
  · exact Or.inl rfl
  · next r hp =>
    split
    · exact Or.inl rfl
    · next hskip =>
      simp only [Bool.or_eq_true, decide_eq_true_eq, not_or] at hskip
      obtain ⟨hdir, hsz⟩ := hskip
      have hdir' : r.is_dir = false := by
        cases hd : r.is_dir
        · rfl
        · exact absurd hd hdir
      have hsz' : r.size = 0 := by omega
      split
      · exact Or.inl rfl
      · next s hstat =>
        split
        · exact Or.inl rfl
        · next r2 hp2 =>
          have hr2 : r2 = r := ((Option.some.injEq r r2).mp hp2).symm
          subst hr2
          exact Or.inr ⟨r2, s, hp, hdir', hsz', rfl⟩

/-- Per-key frame property of one sweep item. -/
theorem fetchSizesItem_frame (store : Store) (drive : Char) (stat : String → Option Nat)
    (pid k : Nat) :
    (store.get k = none → (fetchSizesItem store drive stat pid).get k = none) ∧
    ∀ r, store.get k = some r →
      ∃ r', (fetchSizesItem store drive stat pid).get k = some r' ∧ FrameOk r r' := by
  rcases fetchSizesItem_cases store drive stat pid with heq | ⟨r0, s, hp, hdir, hsz, heq⟩
  · rw [heq]
    exact ⟨fun h => h, fun r hr => ⟨r, hr, FrameOk_refl r⟩⟩
  · rw [heq]
    constructor
    · intro hk
      have hkp : k ≠ pid := by
        intro h
        rw [h, hp] at hk
        exact Option.noConfusion hk
      rw [Store.get_insert, if_neg hkp]
      exact hk
    · intro r hr
      by_cases hkp : k = pid
      · subst hkp
        have hr0 : r = r0 := by
          rw [hr] at hp
          exact (Option.some.injEq r r0).mp hp
        subst hr0
        rw [Store.get_insert, if_pos rfl]
        refine ⟨{ r with size := s }, rfl, rfl, rfl, rfl, rfl, rfl, ?_, ?_⟩
        · intro hd
          rw [hdir] at hd
          exact Bool.noConfusion hd
        · intro hs
          exact absurd hsz hs
      · rw [Store.get_insert, if_neg hkp]
        exact ⟨r, hr, FrameOk_refl r⟩

/-- Per-key frame property of the whole sweep loop. -/
theorem fetchSizesGo_frame (drive : Char) (stat : String → Option Nat) (cancelled : Nat → Bool) :
    ∀ (ids : List Nat) (store : Store) (i k : Nat),
      (store.get k = none → (fetchSizesGo drive stat cancelled ids store i).get k = none) ∧
      ∀ r, store.get k = some r →
        ∃ r', (fetchSizesGo drive stat cancelled ids store i).get k = some r' ∧ FrameOk r r' := by
  intro ids
  induction ids with
  | nil =>
    intro store i k
    simp only [fetchSizesGo]
    exact ⟨fun h => h, fun r hr => ⟨r, hr, FrameOk_refl r⟩⟩
  | cons id rest ih =>
    intro store i k
    simp only [fetchSizesGo]
    by_cases hc : cancelled i = true
    · rw [if_pos hc]
      exact ⟨fun h => h, fun r hr => ⟨r, hr, FrameOk_refl r⟩⟩
    · rw [if_neg hc]
      obtain ⟨hn1, hs1⟩ := fetchSizesItem_frame store drive stat id k
      obtain ⟨hn2, hs2⟩ := ih (fetchSizesItem store drive stat id) (i + 1) k
      refine ⟨fun hk => hn2 (hn1 hk), fun r hr => ?_⟩
      obtain ⟨r', hr', hf1⟩ := hs1 r hr
      obtain ⟨r'', hr'', hf2⟩ := hs2 r' hr'
      exact ⟨r'', hr'', FrameOk_trans hf1 hf2⟩

/-- C5: for every store contents and every outcome of the per-item metadata
query, fetch_sizes writes only the size field of already-present records: the
key set is unchanged (no key appears or disappears), every surviving record
keeps its id, parent_id, name, modified and is_dir, a directory record is
untouched, and a record whose size is already nonzero is untouched (so a
nonzero size is never reduced back to zero). -/
theorem fetch_sizes_frame_c5 (store : Store) (drive : Char) (stat : String → Option Nat)
    (ids : List Nat) (cancelled : Nat → Bool) (k : Nat) :
    (store.get k = none → (fetch_sizes store drive stat ids cancelled).get k = none) ∧
    ∀ r, store.get k = some r →
      ∃ r', (fetch_sizes store drive stat ids cancelled).get k = some r' ∧ FrameOk r r' :=
  fetchSizesGo_frame drive stat cancelled ids store 0 k

/-- Witness for C5 at a concrete store: key 3 stays absent, and record 7
(nonzero size) survives the sweep in FrameOk relation to itself. -/
theorem fetch_sizes_frame_c5_witness :
    (store7.get 3 = none ∧
     (fetch_sizes store7 'C' (fun _ => some 999) [7, 3] (fun _ => false)).get 3 = none) ∧
    (store7.get 7 = some rec7 ∧
     ∃ r', (fetch_sizes store7 'C' (fun _ => some 999) [7, 3] (fun _ => false)).get 7 = some r' ∧
       FrameOk rec7 r') :=
  ⟨⟨rfl, (fetch_sizes_frame_c5 store7 'C' (fun _ => some 999) [7, 3] (fun _ => false) 3).1 rfl⟩,
   rfl, (fetch_sizes_frame_c5 store7 'C' (fun _ => some 999) [7, 3] (fun _ => false) 7).2 rec7 rfl⟩

/-- C3 (amended): the size-fetch sweep never resets a nonzero size — a record
whose size is already nonzero survives fetch_sizes completely unchanged; the
bulk load and the journal monitor, however, perform full-record upserts that
can overwrite a nonzero size with 0 (see the counterexample). -/
theorem fetch_sizes_keeps_nonzero_c3 (store : Store) (drive : Char) (stat : String → Option Nat)
    (ids : List Nat) (cancelled : Nat → Bool) (k : Nat) (r : FileRecord)
    (hr : store.get k = some r) (hnz : r.size ≠ 0) :
    (fetch_sizes store drive stat ids cancelled).get k = some r := by
  obtain ⟨r', hr', hf⟩ := (fetchSizesGo_frame drive stat cancelled ids store 0 k).2 r hr
  obtain ⟨-, -, -, -, -, -, hsz⟩ := hf
  rw [fetch_sizes, hr', hsz hnz]

/-- Witness for C3's amended theorem: the sized record 7 survives a sweep that
would have reported a different size. -/
theorem fetch_sizes_keeps_nonzero_c3_witness :
    store7.get 7 = some rec7 ∧ rec7.size ≠ 0 ∧
    (fetch_sizes store7 'C' (fun _ => some 5) [7] (fun _ => false)).get 7 = some rec7 :=
  ⟨rfl, by decide,
   fetch_sizes_keeps_nonzero_c3 store7 'C' (fun _ => some 5) [7] (fun _ => false) 7 rec7 rfl
     (by decide)⟩

/-- Counterexample to C3 as stated: record 7 already carries the real size
1234; the journal monitor then processes an entry for id 7 whose live
metadata query fails (the "benign race" where the path no longer resolves),
and its unconditional full-record upsert resets the stored size to 0. -/
theorem monitor_resets_size_cex :
    store7.get 7 = some rec7 ∧ rec7.size = 1234 ∧
    ∃ r', (processUsnEntry store7 'C' (fun _ => none) usnEntry7).get 7 = some r' ∧ r'.size = 0 :=
  ⟨rfl, rfl, _, rfl, rfl⟩

/-- C8: every journal entry is upserted with size 0 when it is a directory,
and with modified equal to the FILETIME conversion
(t + 11644473600) * 10^7 of its t-seconds-since-Unix-epoch timestamp
(stated under the no-overflow bound of the u64 arithmetic the code uses). -/
theorem processUsnEntry_fields_c8 (store : Store) (drive : Char)
    (stat : String → Option Nat) (e : UsnEntry) :
    (e.is_dir = true →
      (processUsnEntry store drive stat e).get e.fid =
        some { id := e.fid, parent_id := e.parent_fid, name := e.file_name, size := 0,
               modified := usnModified e.time, is_dir := true }) ∧
    (∀ t, e.time = some t → (t + 11644473600) * 10000000 < 2 ^ 63 →
      ∃ r, (processUsnEntry store drive stat e).get e.fid = some r ∧
        r.modified = ((t : Int) + 11644473600) * 10000000) := by
  constructor
  · intro hd
    simp [processUsnEntry, Store.get_insert, hd]
  · intro t ht hlt
    refine ⟨{ id := e.fid, parent_id := e.parent_fid, name := e.file_name,
              size := if e.is_dir then 0 else (stat (get_full_path store e.fid drive)).getD 0,
              modified := usnModified e.time, is_dir := e.is_dir }, ?_, ?_⟩
    · simp [processUsnEntry, Store.get_insert]
    · show usnModified e.time = ((t : Int) + 11644473600) * 10000000
      rw [ht]
      show toI64 ((t + 11644473600) * 10000000 % 2 ^ 64) = _
      have h64 : (t + 11644473600) * 10000000 < 2 ^ 64 := lt_trans hlt (by norm_num)
      rw [Nat.mod_eq_of_lt h64]
      unfold toI64
      rw [if_pos hlt]
      push_cast
      ring

/-- Witness for C8: a directory entry is stored with size 0, and a file entry
with timestamp 1700000000 s gets modified = 133445472000000000 ticks. -/
theorem processUsnEntry_fields_c8_witness :
    usnDir.is_dir = true ∧
    (processUsnEntry emptyStore 'C' (fun _ => none) usnDir).get 42 =
      some { id := 42, parent_id := 5, name := "docs", size := 0,
             modified := usnModified (some 1700000000), is_dir := true } ∧
    usnFile.time = some 1700000000 ∧
    (1700000000 + 11644473600) * 10000000 < 2 ^ 63 ∧
    ∃ r, (processUsnEntry emptyStore 'C' (fun _ => none) usnFile).get 43 = some r ∧
      r.modified = ((1700000000 : Int) + 11644473600) * 10000000 :=
  ⟨rfl,
   (processUsnEntry_fields_c8 emptyStore 'C' (fun _ => none) usnDir).1 rfl,
   rfl,
   by decide,
   (processUsnEntry_fields_c8 emptyStore 'C' (fun _ => none) usnFile).2 1700000000 rfl
     (by decide)⟩

/-- C6 evaluation at the failing input: the record at offset 8 declares
RecordLength 100 although only 8 valid bytes remain (bytes_read = 16);
MftIter::next does not reject the length — it blindly reinterprets memory
past the valid bytes and yields a garbage record, advancing the offset to
108, instead of terminating the pass. -/
theorem mftNext_overlong_record_c6 :
    badState.bytes_read < badState.offset + readLE badState.buffer badState.offset 4 ∧
    mftNext [] badState =
      some (Except.ok { fid := 0, parent_fid := 0, name := [], modified := 0, is_dir := false },
        { next_start_fid := 5, buffer := badBuf, offset := 108, bytes_read := 16 }) :=
  ⟨by decide, rfl⟩

/-- Unfolding of MftIter::next at a cursor-only success refill. -/
theorem mftNext_refill_ok (s : IterState) (bytes : List Nat) (rest : List RefillOutcome)
    (h : ¬ s.offset < s.bytes_read) :
    mftNext (RefillOutcome.ok bytes :: rest) s =
      if bytes.length < 8 then none
      else mftNext rest
        { next_start_fid := readLE (writeBuf s.buffer bytes) 0 8,
          buffer := writeBuf s.buffer bytes, offset := 8, bytes_read := bytes.length } := by
  rw [mftNext, if_neg h]

/-- Unfolding of MftIter::next at an ERROR_HANDLE_EOF refill. -/
theorem mftNext_refill_eof (s : IterState) (rest : List RefillOutcome)
    (h : ¬ s.offset < s.bytes_read) :
    mftNext (RefillOutcome.eof :: rest) s = none := by
  rw [mftNext, if_neg h]

/-- Unfolding of MftIter::next at a failing refill. -/
theorem mftNext_refill_fail (s : IterState) (msg : String) (rest : List RefillOutcome)
    (h : ¬ s.offset < s.bytes_read) :
    mftNext (RefillOutcome.fail msg :: rest) s =
      some (Except.error ("DeviceIoControl failed at FID 0x" ++
        String.mk (Nat.toDigits 16 s.next_start_fid) ++ ": " ++ msg), s) := by
  rw [mftNext, if_neg h]

/-- C7: when the enumerator needs a refill (all buffered bytes consumed): a
response of exactly the 8-byte resume cursor triggers another refill from the
updated cursor; ERROR_HANDLE_EOF ends the sequence normally (no error item);
any other system failure yields one error item whose message names the
resume-from cursor value (in hex) at the point of failure. -/
theorem mftNext_refill_c7 (s : IterState) (hempty : s.bytes_read ≤ s.offset) :
    (∀ bytes rest, bytes.length = 8 →
      mftNext (RefillOutcome.ok bytes :: rest) s =
        mftNext rest
          { next_start_fid := readLE (writeBuf s.buffer bytes) 0 8,
            buffer := writeBuf s.buffer bytes, offset := 8, bytes_read := 8 }) ∧
    (∀ rest, mftNext (RefillOutcome.eof :: rest) s = none) ∧
    (∀ msg rest, mftNext (RefillOutcome.fail msg :: rest) s =
      some (Except.error ("DeviceIoControl failed at FID 0x" ++
        String.mk (Nat.toDigits 16 s.next_start_fid) ++ ": " ++ msg), s)) := by
  have hno : ¬ s.offset < s.bytes_read := by omega
  refine ⟨?_, fun rest => mftNext_refill_eof s rest hno,
    fun msg rest => mftNext_refill_fail s msg rest hno⟩
  intro bytes rest h8
  rw [mftNext_refill_ok s bytes rest hno, h8, if_neg (by omega)]

/-- Witness for C7 at a fresh iterator state. -/
theorem mftNext_refill_c7_witness :
    iterStart.bytes_read ≤ iterStart.offset ∧
    cursorBytes.length = 8 ∧
    mftNext [RefillOutcome.ok cursorBytes] iterStart =
      mftNext []
        { next_start_fid := readLE (writeBuf iterStart.buffer cursorBytes) 0 8,
          buffer := writeBuf iterStart.buffer cursorBytes, offset := 8, bytes_read := 8 } ∧
    mftNext [RefillOutcome.eof] iterStart = none ∧
    mftNext [RefillOutcome.fail "access denied"] iterStart =
      some (Except.error ("DeviceIoControl failed at FID 0x" ++
        String.mk (Nat.toDigits 16 iterStart.next_start_fid) ++ ": " ++ "access denied"),
        iterStart) := by
  obtain ⟨h1, h2, h3⟩ := mftNext_refill_c7 iterStart (by decide)
  exact ⟨by decide, rfl, h1 cursorBytes [] rfl, h2 [], h3 "access denied" []⟩

/-- Folding entries into the table never removes a key. -/
theorem applyOkEntries_keeps (es : List (MftEntry String)) :
    ∀ (store : Store) (k : Nat), (store.get k).isSome →
      ((applyOkEntries store es).get k).isSome := by
  induction es with
  | nil => intro store k h; exact h
  | cons e rest ih =>
    intro store k h
    refine ih (store.insert e.fid (recordOfEntry e)) k ?_
    rw [Store.get_insert]
    by_cases hk : k = e.fid
    · rw [if_pos hk]; rfl
    · rw [if_neg hk]; exact h

/-- Under a monotone cancellation signal that reads true at check k, the
bulk-load loop stops at the first positive check and returns Ok with at most
the first k entries folded in. -/
theorem indexVolumeGo_cancel (cancelled : Nat → Bool)
    (hmono : ∀ i j, i ≤ j → cancelled i = true → cancelled j = true)
    (k : Nat) (hk : cancelled k = true) :
    ∀ (entries : List (Except String (MftEntry String))) (store : Store) (i : Nat),
      (∀ e ∈ entries.take (k - i), ∃ en, e = Except.ok en) →
      ∃ es : List (MftEntry String), es.length ≤ k - i ∧
        entries.take es.length = es.map Except.ok ∧
        indexVolumeGo cancelled entries store i = Except.ok (applyOkEntries store es) := by
  intro entries
  induction entries with
  | nil =>
    intro store i hok
    exact ⟨[], by simp, rfl, rfl⟩
  | cons e rest ih =>
    intro store i hok
    by_cases hc : cancelled i = true
    · refine ⟨[], by simp, rfl, ?_⟩
      simp only [indexVolumeGo]
      rw [if_pos hc]
      rfl
    · have hik : i < k := by
        by_contra hge
        exact hc (hmono k i (by omega) hk)
      have hki : k - i = (k - (i + 1)) + 1 := by omega
      have he : ∃ en, e = Except.ok en := by
        apply hok e
        rw [hki, List.take_succ_cons]
        exact List.mem_cons_self _ _
      obtain ⟨en, rfl⟩ := he
      obtain ⟨es, hlen, htake, hgo⟩ :=
        ih (store.insert en.fid (recordOfEntry en)) (i + 1) (by
          intro e' he'
          apply hok e'
          rw [hki, List.take_succ_cons]
          exact List.mem_cons_of_mem _ he')
      refine ⟨en :: es, by simp only [List.length_cons]; omega, ?_, ?_⟩
      · simp only [List.length_cons, List.take_succ_cons, List.map_cons]
        rw [htake]
      · simp only [indexVolumeGo]
        rw [if_neg hc]
        exact hgo

/-- C9: if the cancellation signal (monotone, as CancellationToken is) reads
true at check k, the bulk load returns Ok having folded in at most the first
k enumerated records (the signal is checked between records, so nothing past
the first positive check is processed), every inserted record being the
complete size-0 record of its entry, and no existing key is removed (nothing
is rolled back). -/
theorem index_volume_cancel_c9 (store : Store) (drive : Char)
    (entries : List (Except String (MftEntry String))) (cancelled : Nat → Bool) (k : Nat)
    (hmono : ∀ i j, i ≤ j → cancelled i = true → cancelled j = true)
    (hk : cancelled k = true)
    (hok : ∀ e ∈ entries.take k, ∃ en, e = Except.ok en) :
    ∃ es : List (MftEntry String), es.length ≤ k ∧
      entries.take es.length = es.map Except.ok ∧
      index_volume store drive true entries cancelled = Except.ok (applyOkEntries store es) ∧
      ∀ id, (store.get id).isSome → ((applyOkEntries store es).get id).isSome := by
  obtain ⟨es, hlen, htake, hgo⟩ :=
    indexVolumeGo_cancel cancelled hmono k hk entries store 0 (by simpa using hok)
  refine ⟨es, by omega, htake, ?_, applyOkEntries_keeps es store⟩
  show indexVolumeGo cancelled entries store 0 = _
  exact hgo

/-- Witness for C9: three good entries, the signal set from check 1 onward. -/
theorem index_volume_cancel_c9_witness :
    (∀ i j, i ≤ j → (fun n => decide (1 ≤ n)) i = true → (fun n => decide (1 ≤ n)) j = true) ∧
    (fun n => decide (1 ≤ n)) 1 = true ∧
    (∀ e ∈ ([Except.ok entry7, Except.ok entry7, Except.ok entry7] :
        List (Except String (MftEntry String))).take 1, ∃ en, e = Except.ok en) ∧
    ∃ es : List (MftEntry String), es.length ≤ 1 ∧
      ([Except.ok entry7, Except.ok entry7, Except.ok entry7] :
        List (Except String (MftEntry String))).take es.length = es.map Except.ok ∧
      index_volume emptyStore 'C' true [Except.ok entry7, Except.ok entry7, Except.ok entry7]
        (fun n => decide (1 ≤ n)) = Except.ok (applyOkEntries emptyStore es) ∧
      ∀ id, (emptyStore.get id).isSome → ((applyOkEntries emptyStore es).get id).isSome := by
  have hmono : ∀ i j, i ≤ j → (fun n => decide (1 ≤ n)) i = true →
      (fun n => decide (1 ≤ n)) j = true := by
    intro i j hij hi
    simp only [decide_eq_true_eq] at hi ⊢
    omega
  have hok : ∀ e ∈ ([Except.ok entry7, Except.ok entry7, Except.ok entry7] :
      List (Except String (MftEntry String))).take 1, ∃ en, e = Except.ok en := by
    intro e he
    exact ⟨entry7, List.mem_singleton.mp he⟩
  exact ⟨hmono, rfl, hok,
    index_volume_cancel_c9 emptyStore 'C' _ _ 1 hmono rfl hok⟩

/-- Every record the bulk-load loop writes is the size-0 record of some
enumerated entry; everything else is the old record. -/
theorem indexVolumeGo_writes (cancelled : Nat → Bool) :
    ∀ (entries : List (Except String (MftEntry String))) (store : Store) (i : Nat)
      (store2 : Store),
      indexVolumeGo cancelled entries store i = Except.ok store2 →
      ∀ k r, store2.get k = some r →
        store.get k = some r ∨
          ∃ e, Except.ok e ∈ entries ∧ e.fid = k ∧ r = recordOfEntry e := by
  intro entries
  induction entries with
  | nil =>
    intro store i store2 hgo k r hr
    have hse : store = store2 := by simpa [indexVolumeGo] using hgo
    exact Or.inl (hse ▸ hr)
  | cons e rest ih =>
    intro store i store2 hgo k r hr
    simp only [indexVolumeGo] at hgo
    by_cases hc : cancelled i = true
    · rw [if_pos hc] at hgo
      have hse : store = store2 := by simpa using hgo
      exact Or.inl (hse ▸ hr)
    · rw [if_neg hc] at hgo
      cases e with
      | error msg => simp at hgo
      | ok en =>
        rcases ih (store.insert en.fid (recordOfEntry en)) (i + 1) store2 hgo k r hr with
          hold | ⟨e', hmem, hfid, hrec⟩
        · rw [Store.get_insert] at hold
          by_cases hk : k = en.fid
          · rw [if_pos hk] at hold
            exact Or.inr ⟨en, List.mem_cons_self _ _, hk.symm,
              ((Option.some.injEq _ _).mp hold).symm⟩
          · rw [if_neg hk] at hold
            exact Or.inl hold
        · exact Or.inr ⟨e', List.mem_cons_of_mem _ hmem, hfid, hrec⟩

/-- C10: every record written by index_volume during bulk enumeration has
size 0 and is exactly the record built from its enumerated entry (a complete
replacement of whatever was at that id): any id in the resulting store holds
either its old record or the size-0 record of an enumerated entry. -/
theorem index_volume_writes_c10 (store : Store) (drive : Char)
    (entries : List (Except String (MftEntry String))) (cancelled : Nat → Bool)
    (store2 : Store)
    (hrun : index_volume store drive true entries cancelled = Except.ok store2) :
    ∀ k r, store2.get k = some r →
      store.get k = some r ∨
        (r.size = 0 ∧ ∃ e, Except.ok e ∈ entries ∧ e.fid = k ∧ r = recordOfEntry e) := by
  intro k r hr
  rcases indexVolumeGo_writes cancelled entries store 0 store2 hrun k r hr with
    hold | ⟨e, hmem, hfid, hrec⟩
  · exact Or.inl hold
  · exact Or.inr ⟨by rw [hrec]; rfl, e, hmem, hfid, hrec⟩

/-- Witness for C10: id 7 carried the nonzero size 1234; after the bulk load
inserts entry7, the record at 7 is the fresh entry record with size 0. -/
theorem index_volume_writes_c10_witness :
    index_volume store7 'C' true [Except.ok entry7] (fun _ => false) =
      Except.ok (store7.insert 7 (recordOfEntry entry7)) ∧
    (store7.insert 7 (recordOfEntry entry7)).get 7 = some (recordOfEntry entry7) ∧
    rec7.size = 1234 ∧ (recordOfEntry entry7).size = 0 ∧
    (store7.get 7 = some (recordOfEntry entry7) ∨
      ((recordOfEntry entry7).size = 0 ∧
       ∃ e, Except.ok e ∈ ([Except.ok entry7] : List (Except String (MftEntry String))) ∧
         e.fid = 7 ∧ recordOfEntry entry7 = recordOfEntry e)) := by
  refine ⟨rfl, rfl, rfl, rfl, ?_⟩
  exact index_volume_writes_c10 store7 'C' [Except.ok entry7] (fun _ => false)
    (store7.insert 7 (recordOfEntry entry7)) rfl 7 (recordOfEntry entry7) rfl
